import Mathlib

/-!
# Verification of the taste.fun event-ingestion and projection pipeline

Shallow embedding of the backend indexer (`BlockchainIndexer` in
`src/services/indexer`), the projection handlers
(`src/apps/backend/src/handlers/index.ts`) and the relational model
(`src/apps/backend/src/database/schema.sql`).

Conventions of the embedding:
* transaction signatures are abstract identifiers, modelled as `Nat`
  (in the source they are base58 strings; only identity/equality matters);
* pubkeys (ideas, voters, reviewers) are `String`s as in the schema;
* bigint amounts (lamports, weights) are `Nat` (all on-chain amounts
  are unsigned 64-bit values mirrored through non-negative `bigint`s);
* slots are `Nat`;
* tables are association/row lists mirroring the schema's uniqueness
  constraints through the upsert operations that maintain them;
* the database also carries a ghost trace field `dispatched` recording,
  per signature, that `parseAndHandleEvents` ran for it (i.e. the
  signature's events were decoded and dispatched); it models no stored
  data, only the observable "this signature was applied" action;
* a projection failure (a thrown/rolled-back handler transaction) is
  modelled by an oracle `fails : Event → Bool` consulted at dispatch
  time: a failing dispatch leaves the database unchanged (the handler's
  transaction rolls back) and raises the error, exactly as
  `db.transaction` re-throws after `ROLLBACK`.
-/

/-- Lifecycle status of an idea (`ideas.status`, constraint `valid_status`). -/
inductive IdeaStatus where
  | generatingImages
  | voting
  | completed
  | cancelled
deriving DecidableEq, Repr

/-- Row of the `ideas` table (the columns the indexer claims touch). -/
structure Idea where
  status : IdeaStatus
  winningImageIndex : Option Nat
  /-- the 4-slot vote-weight vector `votes[1..4]` (0-indexed here). -/
  votes : List Nat
  rejectAllWeight : Nat
  totalStaked : Nat
  totalVoters : Nat
  curatorFeeCollected : Nat
  platformFeeCollected : Nat
  penaltyPoolAmount : Nat
  winnerCount : Nat
deriving DecidableEq, Repr

/-- Row of the `votes` table; unique on `(idea_pubkey, voter_pubkey)`. -/
structure VoteRow where
  idea : String
  voter : String
  imageChoice : Nat
  stakeAmount : Nat
  voteWeight : Nat
  /-- Column `is_winner BOOLEAN` — NULL until settled. -/
  isWinner : Option Bool
  winningsWithdrawn : Bool
deriving DecidableEq, Repr

/-- Row of the `reviewer_stakes` table; unique on `(idea_pubkey, reviewer_pubkey)`. -/
structure ReviewerStakeRow where
  idea : String
  reviewer : String
  totalStaked : Nat
  isWinner : Bool
  winnings : Nat
deriving DecidableEq, Repr

/-- The relational state owned by the projection pipeline:
`ideas`, `votes`, `reviewer_stakes`, `processed_signatures`
(pairs of signature and slot) and the single `sync_state` row
(`last_processed_slot`, `last_processed_signature`), plus the
ghost dispatch trace described in the file header. -/
structure DB where
  ideas : List (String × Idea)
  votes : List VoteRow
  reviewerStakes : List ReviewerStakeRow
  processedSignatures : List (Nat × Nat)
  syncLastSlot : Nat
  syncLastSig : Option Nat
  dispatched : List Nat
deriving DecidableEq, Repr

/-- In-memory state of the `BlockchainIndexer` instance: the database it
talks to plus the `reconnectAttempts` counter field. -/
structure IndexerState where
  db : DB
  reconnectAttempts : Nat
deriving DecidableEq, Repr

/-- Payload of a `VoteCast` event (fields used by `handleVoteCast`). -/
structure VoteCastEvent where
  idea : String
  voter : String
  imageChoice : Nat
  stakeAmount : Nat
deriving DecidableEq, Repr

/-- Payload of a `VotingSettled` event (fields used by `handleVotingSettled`). -/
structure VotingSettledEvent where
  idea : String
  winningImageIndex : Nat
  totalStaked : Nat
  curatorFee : Nat
  platformFee : Nat
  penaltyPool : Nat
  winnerCount : Nat
deriving DecidableEq, Repr

/-- Payload of a `WinningsWithdrawn` event. -/
structure WinningsWithdrawnEvent where
  idea : String
  reviewer : String
  amount : Nat
deriving DecidableEq, Repr

/-- The decoded events the dispatch switch routes (the variants the
claims exercise; `unknown` stands for the `default:` branch that logs
and ignores an unrecognised event name). -/
inductive Event where
  | voteCast (e : VoteCastEvent)
  | votingSettled (e : VotingSettledEvent)
  | winningsWithdrawn (e : WinningsWithdrawnEvent)
  | unknown (name : Nat)
deriving DecidableEq, Repr

/-- Newton-iteration loop of `integerSqrt`
(`handlers/index.ts`, lines 893-896): `while (y < x) { x = y; y = (x + n / x) / 2 }`. -/
def isqrtLoop (n x y : Nat) : Nat :=
  if y < x then isqrtLoop n y ((y + n / y) / 2) else x
termination_by x
decreasing_by simpa using ‹y < x›

/-- Function `integerSqrt` (`handlers/index.ts`, lines 889-898): integer square
root by Newton iteration; `x = n; y = (x + 1) / 2`. -/
def integerSqrt (n : Nat) : Nat :=
  if n = 0 then 0 else isqrtLoop n n ((n + 1) / 2)

/-- Statement `UPDATE <table> ... WHERE pubkey = k` over an association list:
applies `f` to every row whose key matches (no-op when absent). -/
def updateAssoc (k : String) (f : Idea → Idea) (l : List (String × Idea)) :
    List (String × Idea) :=
  l.map fun p => if p.1 == k then (p.1, f p.2) else p

/-- Query `SELECT ... FROM ideas WHERE pubkey = k`. -/
def lookupIdea (db : DB) (k : String) : Option Idea :=
  db.ideas.lookup k

/-- Query `SELECT ... FROM votes WHERE idea_pubkey = i AND voter_pubkey = v`
(at most one row by `unique_vote_per_idea`). -/
def findVote (votes : List VoteRow) (i v : String) : Option VoteRow :=
  votes.find? fun r => r.idea == i && r.voter == v

/-- The `INSERT INTO votes ... ON CONFLICT (idea_pubkey, voter_pubkey)
DO UPDATE SET image_choice, stake_amount, vote_weight = EXCLUDED...`
statement of `handleVoteCast`. -/
def upsertVote (e : VoteCastEvent) (w : Nat) (votes : List VoteRow) :
    List VoteRow :=
  if votes.any (fun r => r.idea == e.idea && r.voter == e.voter) then
    votes.map fun r =>
      if r.idea == e.idea && r.voter == e.voter then
        { r with imageChoice := e.imageChoice, stakeAmount := e.stakeAmount,
                 voteWeight := w }
      else r
  else
    votes ++ [{ idea := e.idea, voter := e.voter, imageChoice := e.imageChoice,
                stakeAmount := e.stakeAmount, voteWeight := w,
                isWinner := none, winningsWithdrawn := false }]

/-- The `INSERT INTO reviewer_stakes ... ON CONFLICT DO UPDATE SET
total_staked = reviewer_stakes.total_staked + EXCLUDED.total_staked`
statement of `handleVoteCast`. -/
def upsertReviewerStake (i v : String) (s : Nat)
    (stakes : List ReviewerStakeRow) : List ReviewerStakeRow :=
  if stakes.any (fun r => r.idea == i && r.reviewer == v) then
    stakes.map fun r =>
      if r.idea == i && r.reviewer == v then
        { r with totalStaked := r.totalStaked + s }
      else r
  else
    stakes ++ [{ idea := i, reviewer := v, totalStaked := s,
                 isWinner := false, winnings := 0 }]

/-- Handler `handleVoteCast` (`handlers/index.ts`, lines 552-663): weight =
`integerSqrt(stakeAmount)`; upsert the vote row; bump the idea's
aggregates (`reject_all_weight` for the 255 sentinel, else
`votes[imageChoice]`; always `total_staked += stake`,
`total_voters += 1`); upsert the reviewer stake additively. -/
def handleVoteCast (e : VoteCastEvent) (db : DB) : DB :=
  let voteWeight := integerSqrt e.stakeAmount
  { db with
    votes := upsertVote e voteWeight db.votes
    ideas := updateAssoc e.idea (fun i =>
      if e.imageChoice == 255 then
        { i with rejectAllWeight := i.rejectAllWeight + voteWeight,
                 totalStaked := i.totalStaked + e.stakeAmount,
                 totalVoters := i.totalVoters + 1 }
      else
        { i with votes := i.votes.set e.imageChoice
                   (i.votes.getD e.imageChoice 0 + voteWeight),
                 totalStaked := i.totalStaked + e.stakeAmount,
                 totalVoters := i.totalVoters + 1 }) db.ideas
    reviewerStakes := upsertReviewerStake e.idea e.voter e.stakeAmount
      db.reviewerStakes }

/-- Handler `handleVotingSettled` (`handlers/index.ts`, lines 668-740): set the
idea to Completed with the settlement figures; `UPDATE votes SET
is_winner = TRUE WHERE idea_pubkey = e.idea AND image_choice =
e.winningImageIndex`; then propagate the winner flag to
`reviewer_stakes` via the join on the updated `votes`. -/
def handleVotingSettled (e : VotingSettledEvent) (db : DB) : DB :=
  let votes' := db.votes.map fun r =>
    if r.idea == e.idea && r.imageChoice == e.winningImageIndex then
      { r with isWinner := some true }
    else r
  { db with
    ideas := updateAssoc e.idea (fun i =>
      { i with status := .completed,
               winningImageIndex := some e.winningImageIndex,
               curatorFeeCollected := e.curatorFee,
               platformFeeCollected := e.platformFee,
               penaltyPoolAmount := e.penaltyPool,
               winnerCount := e.winnerCount }) db.ideas
    votes := votes'
    reviewerStakes := db.reviewerStakes.map fun rs =>
      if rs.idea == e.idea &&
         votes'.any (fun v => v.idea == rs.idea && v.voter == rs.reviewer &&
                              v.isWinner == some true) then
        { rs with isWinner := true }
      else rs }

/-- Handler `handleWinningsWithdrawn` (`handlers/index.ts`, lines 745-780):
`UPDATE votes SET winnings_withdrawn = TRUE WHERE idea_pubkey = $1 AND
voter_pubkey = $2`. -/
def handleWinningsWithdrawn (e : WinningsWithdrawnEvent) (db : DB) : DB :=
  { db with
    votes := db.votes.map fun r =>
      if r.idea == e.idea && r.voter == e.reviewer then
        { r with winningsWithdrawn := true }
      else r }

/-- The event dispatch switch (`dispatchEvent`, indexer lines 380-482),
applied to the database state; the `default:` branch ignores unknown
events. -/
def applyEvent (e : Event) (db : DB) : DB :=
  match e with
  | .voteCast ev => handleVoteCast ev db
  | .votingSettled ev => handleVotingSettled ev db
  | .winningsWithdrawn ev => handleWinningsWithdrawn ev db
  | .unknown _ => db

/-- Method `dispatchEvent` with the projection-failure oracle: a failing
handler transaction rolls back (database unchanged) and the error is
re-thrown to the dispatcher. -/
def dispatchEvent (fails : Event → Bool) (e : Event) (db : DB) :
    Except Unit DB :=
  if fails e then .error () else .ok (applyEvent e db)

/-- The `for (const event of events) { await this.dispatchEvent(...) }`
loop of `parseAndHandleEvents`: the first dispatch error aborts the
loop (it is caught by the surrounding `try`). -/
def dispatchLoop (fails : Event → Bool) (events : List Event) (db : DB) : DB :=
  match events with
  | [] => db
  | e :: rest =>
    match dispatchEvent fails e db with
    | .ok db' => dispatchLoop fails rest db'
    | .error _ => db

/-- Method `parseAndHandleEvents` (indexer lines 340-375): records the
signature in the dispatch trace and runs the dispatch loop; its `catch`
swallows any dispatch error, so the caller never observes a failure. -/
def parseAndHandleEvents (fails : Event → Bool) (sig : Nat)
    (events : List Event) (db : DB) : DB :=
  dispatchLoop fails events { db with dispatched := db.dispatched ++ [sig] }

/-- Query `SELECT id FROM processed_signatures WHERE signature = $1` —
non-empty result means already processed. -/
def sigProcessed (db : DB) (sig : Nat) : Bool :=
  db.processedSignatures.any fun p => p.1 == sig

/-- Method `handleLog` (indexer lines 285-335): skip if the signature is in
`processed_signatures`; otherwise parse-and-handle the transaction's
events, insert the signature into `processed_signatures`, write
`sync_state.last_processed_slot` / `last_processed_signature`
(`updateLastProcessedSlot(slot, signature)`), and reset
`reconnectAttempts` to 0.  The transaction fetch is modelled as
found (`events` is its decoded event list). -/
def handleLog (fails : Event → Bool) (sig slot : Nat) (events : List Event)
    (s : IndexerState) : IndexerState :=
  if sigProcessed s.db sig then s
  else
    let db1 := parseAndHandleEvents fails sig events s.db
    { db := { db1 with
                processedSignatures := db1.processedSignatures ++ [(sig, slot)],
                syncLastSlot := slot,
                syncLastSig := some sig },
      reconnectAttempts := 0 }

/-- Body of the per-signature loop of `syncHistoricalData` (indexer
lines 522-567): skip if already processed, else parse-and-handle and
insert into `processed_signatures`.  It does not touch `sync_state`
nor `reconnectAttempts`. -/
def processHistoricalSignature (fails : Event → Bool)
    (events : Nat → List Event) (info : Nat × Nat) (db : DB) : DB :=
  if sigProcessed db info.1 then db
  else
    let db1 := parseAndHandleEvents fails info.1 (events info.1) db
    { db1 with
      processedSignatures := db1.processedSignatures ++ [(info.1, info.2)] }

/-- The signatures of a program's chain whose slot lies in
`(untilSlot, head]` — the gap the historical sync is meant to cover. -/
def gapList (chain : List (Nat × Nat)) (untilSlot head : Nat) :
    List (Nat × Nat) :=
  chain.filter fun p => untilSlot < p.2 && p.2 ≤ head

/-- Modelled from the spec: the ledger RPC's
`listSignatures(program, untilSlot)` pull interface (spec section 6),
as invoked by `syncHistoricalData` with `{ limit: 1000, until:
lastProcessedSlot }`: the signatures of the program's chain whose slot
lies in `(untilSlot, head]`, capped at 1000 entries — the `limit: 1000`
passed by the code.  The RPC itself is an external collaborator;
`chain` is the program's signature/slot history. -/
def listSignatures (chain : List (Nat × Nat)) (untilSlot head : Nat) :
    List (Nat × Nat) :=
  (gapList chain untilSlot head).take 1000

/-- A signature `s` lies in the sync gap `(untilSlot, head]` of one of
the monitored programs' chains. -/
def inGap (chains : List (List (Nat × Nat))) (untilSlot head s : Nat) :
    Prop :=
  ∃ c ∈ chains, ∃ p ∈ c, p.1 = s ∧ untilSlot < p.2 ∧ p.2 ≤ head

/-- Method `syncHistoricalData` (indexer lines 487-575): read the chain head
once; skip when the checkpoint is 0 or the gap is under 100 slots;
otherwise, for each monitored program, list the gap signatures
(limit 1000) and run each through `processHistoricalSignature`; finally
`updateLastProcessedSlot(currentSlot)` with the head observed at start
(clearing `last_processed_signature`, since no signature argument is
passed).  `chains` holds one signature history per monitored program
(core, settlement, token). -/
def syncHistoricalData (fails : Event → Bool) (events : Nat → List Event)
    (head : Nat) (chains : List (List (Nat × Nat))) (db : DB) : DB :=
  if db.syncLastSlot = 0 ∨ head - db.syncLastSlot < 100 then db
  else
    let db' := chains.foldl (fun acc chain =>
      (listSignatures chain db.syncLastSlot head).foldl
        (fun a info => processHistoricalSignature fails events info a) acc) db
    { db' with syncLastSlot := head, syncLastSig := none }

/-- Ceiling of the reconnect backoff
(`Math.min(1000 * Math.pow(2, attempts), 30000)`, indexer line 267). -/
def maxReconnectDelay : Nat := 30000

/-- Field `maxReconnectAttempts` of the indexer (line 43). -/
def maxReconnectAttempts : Nat := 10

/-- Delay scheduled for the `n`-th consecutive failed subscription
attempt (indexer line 267, after `reconnectAttempts++` has made the
counter equal to `n`). -/
def delayFor (n : Nat) : Nat :=
  min (1000 * 2 ^ n) maxReconnectDelay

/-- One failed `subscribeToLogs` attempt (indexer lines 261-279): if
the counter is below `maxReconnectAttempts`, increment it and schedule
a retry after `delayFor` of the new counter; otherwise give up
(`Max reconnection attempts reached` — the error is re-thrown). -/
def failStep (a : Nat) : Option (Nat × Nat) :=
  if a < maxReconnectAttempts then some (a + 1, delayFor (a + 1)) else none

/-- Value of `reconnectAttempts` after `k` consecutive failed subscription
attempts starting from a fresh counter. -/
def attemptsAfter : Nat → Nat
  | 0 => 0
  | k + 1 =>
    match failStep (attemptsAfter k) with
    | some (a, _) => a
    | none => attemptsAfter k

/-- Fuel-indexed variant of the Newton loop, mirroring the `while`
loop operationally: `none` means the fuel ran out before the loop
exited. -/
def isqrtLoopFuel (fuel n x y : Nat) : Option Nat :=
  match fuel with
  | 0 => none
  | fuel + 1 => if y < x then isqrtLoopFuel fuel n y ((y + n / y) / 2) else some x

/-- The `SET` clause of the ideas `UPDATE` in `handleVotingSettled`. -/
def settleIdea (e : VotingSettledEvent) (i : Idea) : Idea :=
  { i with status := IdeaStatus.completed,
           winningImageIndex := some e.winningImageIndex,
           curatorFeeCollected := e.curatorFee,
           platformFeeCollected := e.platformFee,
           penaltyPoolAmount := e.penaltyPool,
           winnerCount := e.winnerCount }

/-! ## Concrete fixtures -/

/-- A fresh database: empty tables, checkpoint 0 (the schema's initial
`sync_state` row). -/
def emptyDB : DB :=
  { ideas := [], votes := [], reviewerStakes := [], processedSignatures := [],
    syncLastSlot := 0, syncLastSig := none, dispatched := [] }

/-- Failure oracle: every handler transaction fails (simulated storage
error). -/
def failsAll : Event → Bool := fun _ => true

/-- Failure oracle: no handler transaction fails. -/
def noFail : Event → Bool := fun _ => false

/-- A sample event whose handler transaction will be forced to fail. -/
def failEvent : Event := .voteCast ⟨"I", "V", 0, 4⟩

/-- An idea row in Voting state with zeroed aggregates. -/
def idea0 : Idea :=
  { status := .voting, winningImageIndex := none, votes := [0, 0, 0, 0],
    rejectAllWeight := 0, totalStaked := 0, totalVoters := 0,
    curatorFeeCollected := 0, platformFeeCollected := 0,
    penaltyPoolAmount := 0, winnerCount := 0 }

/-- Database holding exactly the idea `"I"`. -/
def c2db : DB := { emptyDB with ideas := [("I", idea0)] }

/-- First vote of voter `"V"` on idea `"I"`: choice 0, stake 4. -/
def c2e1 : VoteCastEvent := ⟨"I", "V", 0, 4⟩

/-- Second vote of the same voter on the same idea: choice 2, stake 9. -/
def c2e2 : VoteCastEvent := ⟨"I", "V", 2, 9⟩

/-- The database after both votes are applied. -/
def c2db2 : DB := handleVoteCast c2e2 (handleVoteCast c2e1 c2db)

/-- Database whose checkpoint sits at slot 1000. -/
def c7db : DB := { emptyDB with syncLastSlot := 1000 }

/-- Votes table for the settlement witness: two votes on idea `"I"`
(choices 1 and 0) and one choice-1 vote on another idea `"J"`. -/
def c8db : DB :=
  { emptyDB with
    ideas := [("I", idea0)],
    votes := [⟨"I", "A", 1, 4, 2, none, false⟩,
              ⟨"I", "B", 0, 9, 3, none, false⟩,
              ⟨"J", "C", 1, 4, 2, none, false⟩] }

/-- A `VotingSettled` event for idea `"I"` with winning index 1. -/
def c8e : VotingSettledEvent := ⟨"I", 1, 13, 1, 1, 0, 1⟩

/-- A chain with 1001 distinct signatures, all in slot 50. -/
def bigChain : List (Nat × Nat) := (List.range 1001).map fun i => (i, 50)

/-- Database whose checkpoint sits at slot 1. -/
def c6db : DB := { emptyDB with syncLastSlot := 1 }

/-! ## Shared lemmas: integer square root -/

/-- AM-GM for naturals with a fixed even sum. -/
theorem am_gm_nat (a b s : Nat) (h : a + b = 2 * s) : a * b ≤ s * s := by
  nlinarith [sq_nonneg ((a : ℤ) - b), sq_nonneg ((a : ℤ) + b)]

/-- One Newton step never drops below the integer square root. -/
theorem sqrt_le_newton (n x : Nat) (hx : 0 < x) :
    Nat.sqrt n ≤ (x + n / x) / 2 := by
  set s := Nat.sqrt n with hs
  have hsq : s * s ≤ n := Nat.sqrt_le n
  rw [Nat.le_div_iff_mul_le (by norm_num : (0:Nat) < 2)]
  by_cases h : 2 * s ≤ x
  · have := Nat.zero_le (n / x)
    omega
  · push_neg at h
    have hd : (2 * s - x) ≤ n / x := by
      rw [Nat.le_div_iff_mul_le hx]
      have : (2 * s - x) * x ≤ s * s := by
        have := am_gm_nat (2 * s - x) x s (by omega)
        linarith [this]
      omega
    have := Nat.zero_le (n / x)
    omega

/-- The Newton loop computes the integer square root: starting from any
over-approximation of `√n`, it converges to `Nat.sqrt n`. -/
theorem isqrtLoop_eq_sqrt (x : Nat) : ∀ n, 0 < n → 0 < x → Nat.sqrt n ≤ x →
    isqrtLoop n x ((x + n / x) / 2) = Nat.sqrt n := by
  induction x using Nat.strong_induction_on with
  | _ x ih =>
    intro n hn hx hsx
    rw [isqrtLoop]
    by_cases h : (x + n / x) / 2 < x
    · rw [if_pos h]
      have hy : Nat.sqrt n ≤ (x + n / x) / 2 := sqrt_le_newton n x hx
      have hy0 : 0 < (x + n / x) / 2 := lt_of_lt_of_le (Nat.sqrt_pos.mpr hn) hy
      exact ih _ h n hn hy0 hy
    · rw [if_neg h]
      push_neg at h
      have h2 : x * 2 ≤ x + n / x := by
        have := (Nat.le_div_iff_mul_le (by norm_num : (0:Nat) < 2)).mp h
        omega
      have hxn : x ≤ n / x := by omega
      have : x * x ≤ n := (Nat.le_div_iff_mul_le hx).mp hxn
      have : x ≤ Nat.sqrt n := Nat.le_sqrt.mpr this
      omega

/-- Function `integerSqrt` agrees with the mathematical floor square root. -/
theorem integerSqrt_eq_sqrt (n : Nat) : integerSqrt n = Nat.sqrt n := by
  unfold integerSqrt
  by_cases h : n = 0
  · simp [h]
  · rw [if_neg h]
    have hn : 0 < n := Nat.pos_of_ne_zero h
    have hdiv : (n + 1) / 2 = (n + n / n) / 2 := by rw [Nat.div_self hn]
    rw [hdiv]
    exact isqrtLoop_eq_sqrt n n hn hn (Nat.sqrt_le_self n)

/-- Fuel `x + 1` always suffices for the Newton loop, because the
iterate strictly decreases on every pass. -/
theorem isqrtLoopFuel_sufficient : ∀ (f x : Nat), x < f → ∀ n y,
    isqrtLoopFuel f n x y = some (isqrtLoop n x y) := by
  intro f
  induction f with
  | zero => intro x hx; omega
  | succ f ih =>
    intro x hx n y
    rw [isqrtLoop, isqrtLoopFuel]
    by_cases h : y < x
    · rw [if_pos h, if_pos h]
      exact ih y (by omega) n ((y + n / y) / 2)
    · rw [if_neg h, if_neg h]

/-- C10: for every non-negative input `n`, the Newton-iteration loop of
`integerSqrt` terminates: the iterate strictly decreases on every pass,
so fuel `x + 1` always suffices to reach the exit, and in particular
the vote-weight computation `integerSqrt n` is reached by the
operational (fuel-indexed) loop within `n + 1` iterations — it is a
total function on non-negative inputs. -/
theorem integerSqrt_terminates :
    (∀ n x y, isqrtLoopFuel (x + 1) n x y = some (isqrtLoop n x y)) ∧
    (∀ n, isqrtLoopFuel (n + 1) n n ((n + 1) / 2) = some (integerSqrt n)) := by
  constructor
  · intro n x y
    exact isqrtLoopFuel_sufficient (x + 1) x (Nat.lt_succ_self x) n y
  · intro n
    rw [isqrtLoopFuel_sufficient (n + 1) n (Nat.lt_succ_self n) n ((n + 1) / 2)]
    by_cases h : n = 0
    · subst h
      rw [isqrtLoop]
      simp [integerSqrt]
    · unfold integerSqrt
      rw [if_neg h]

/-! ## Shared lemmas: the vote upsert -/

/-- A non-matching head row passes through `upsertVote` untouched. -/
theorem upsertVote_cons_ne (e : VoteCastEvent) (w : Nat) (r : VoteRow)
    (rest : List VoteRow)
    (hr : (r.idea == e.idea && r.voter == e.voter) = false) :
    upsertVote e w (r :: rest) = r :: upsertVote e w rest := by
  unfold upsertVote
  simp only [List.any_cons, hr, Bool.false_or]
  by_cases h : rest.any (fun x => x.idea == e.idea && x.voter == e.voter) = true
  · rw [if_pos h, if_pos h, List.map_cons, if_neg (by simp [hr])]
  · rw [if_neg h, if_neg h]
    rfl

/-- After `upsertVote`, the `(idea, voter)` row exists and carries the
event's choice, stake, and the given weight. -/
theorem findVote_upsertVote (e : VoteCastEvent) (w : Nat) :
    ∀ votes : List VoteRow, ∃ iw wd,
      findVote (upsertVote e w votes) e.idea e.voter =
        some ⟨e.idea, e.voter, e.imageChoice, e.stakeAmount, w, iw, wd⟩ := by
  intro votes
  induction votes with
  | nil =>
    refine ⟨none, false, ?_⟩
    simp [upsertVote, findVote]
  | cons r rest ih =>
    by_cases hr : (r.idea == e.idea && r.voter == e.voter) = true
    · have hparts := (Bool.and_eq_true _ _).mp hr
      have h1 : r.idea = e.idea := eq_of_beq hparts.1
      have h2 : r.voter = e.voter := eq_of_beq hparts.2
      refine ⟨r.isWinner, r.winningsWithdrawn, ?_⟩
      unfold upsertVote
      have hany : (r :: rest).any
          (fun x => x.idea == e.idea && x.voter == e.voter) = true := by
        simp [List.any_cons, hr]
      rw [if_pos hany]
      simp only [List.map_cons, hr, if_pos]
      unfold findVote
      rw [List.find?_cons_of_pos _ (by simp [hr])]
      simp [h1, h2]
    · have hrf : (r.idea == e.idea && r.voter == e.voter) = false := by
        simpa using hr
      obtain ⟨iw, wd, hih⟩ := ih
      refine ⟨iw, wd, ?_⟩
      rw [upsertVote_cons_ne e w r rest hrf]
      unfold findVote at hih ⊢
      rw [List.find?_cons_of_neg _ (by simp [hrf])]
      exact hih

/-- C3: the vote weight recorded by `handleVoteCast` for stake `s` is
`floor (sqrt s)` — it equals `Nat.sqrt s`, it is the largest integer
whose square is at most `s`, and `s = 100000000` yields weight
`10000`. -/
theorem handleVoteCast_vote_weight_floor_sqrt (e : VoteCastEvent) (db : DB) :
    ∃ r, findVote (handleVoteCast e db).votes e.idea e.voter = some r ∧
      r.voteWeight = Nat.sqrt e.stakeAmount ∧
      r.voteWeight * r.voteWeight ≤ e.stakeAmount ∧
      e.stakeAmount < (r.voteWeight + 1) * (r.voteWeight + 1) ∧
      integerSqrt 100000000 = 10000 := by
  obtain ⟨iw, wd, h⟩ := findVote_upsertVote e (integerSqrt e.stakeAmount) db.votes
  refine ⟨⟨e.idea, e.voter, e.imageChoice, e.stakeAmount,
           integerSqrt e.stakeAmount, iw, wd⟩, ?_, ?_, ?_, ?_, ?_⟩
  · exact h
  · simp [integerSqrt_eq_sqrt]
  · simp only [integerSqrt_eq_sqrt]
    exact Nat.sqrt_le _
  · simp only [integerSqrt_eq_sqrt]
    exact Nat.lt_succ_sqrt _
  · rw [integerSqrt_eq_sqrt]
    exact Nat.sqrt_eq 10000


/-- C1: the claim is false on the code.  A forced dispatch failure for
the single event of signature 7 rolls the handler transaction back
(`votes` stays empty), yet `handleLog` still inserts the signature into
`processed_signatures`: the `catch` in `parseAndHandleEvents` swallows
the dispatch error, so the failed event will never be retried. -/
theorem handleLog_marks_processed_despite_dispatch_failure :
    dispatchEvent failsAll failEvent emptyDB = .error () ∧
    (handleLog failsAll 7 42 [failEvent] ⟨emptyDB, 3⟩).db.votes = [] ∧
    (handleLog failsAll 7 42 [failEvent] ⟨emptyDB, 3⟩).db.processedSignatures
      = [(7, 42)] ∧
    sigProcessed (handleLog failsAll 7 42 [failEvent] ⟨emptyDB, 3⟩).db 7
      = true := by
  refine ⟨rfl, ?_, ?_, ?_⟩ <;> decide


/-- C2: the claim is false on the code.  Two `VoteCast` events from the
same voter on the same idea leave exactly one `votes` row carrying
the later choice and stake (the upsert works), but `total_voters` is
incremented on *both* applications — the handler has no
insert-vs-update detection — so it ends at 2, not 1 (and
`total_staked` accumulates both stakes, 4 + 9 = 13). -/
theorem handleVoteCast_double_vote_double_increments_total_voters :
    c2db2.votes = [⟨"I", "V", 2, 9, 3, none, false⟩] ∧
    (lookupIdea c2db2 "I").map Idea.totalVoters = some 2 ∧
    (lookupIdea c2db2 "I").map Idea.totalStaked = some 13 := by
  have h4 : integerSqrt 4 = 2 := by
    rw [integerSqrt_eq_sqrt]
    exact Nat.sqrt_eq 2
  have h9 : integerSqrt 9 = 3 := by
    rw [integerSqrt_eq_sqrt]
    exact Nat.sqrt_eq 3
  simp only [c2db2, handleVoteCast, c2e1, c2e2, h4, h9]
  decide

/-- C5 counterexample: the claim is false on the code as stated.  Two
live notifications whose slots arrive out of order (slot 100 then slot
50, distinct fresh signatures) make `updateLastProcessedSlot` store 50
over 100 — the checkpoint decreases, because `handleLog` writes the
notification's slot unconditionally. -/
theorem checkpoint_decreases_on_out_of_order_slots :
    (handleLog noFail 1 100 [] ⟨emptyDB, 0⟩).db.syncLastSlot = 100 ∧
    (handleLog noFail 2 50 [] (handleLog noFail 1 100 [] ⟨emptyDB, 0⟩)).db.syncLastSlot
      = 50 := by
  decide

/-! ## Shared lemmas: dispatch and the idempotency ledger -/

/-- Projection handlers never touch the `processed_signatures` table. -/
theorem applyEvent_processedSignatures (e : Event) (db : DB) :
    (applyEvent e db).processedSignatures = db.processedSignatures := by
  cases e <;> rfl

/-- Projection handlers never touch the dispatch trace. -/
theorem applyEvent_dispatched (e : Event) (db : DB) :
    (applyEvent e db).dispatched = db.dispatched := by
  cases e <;> rfl

/-- Projection handlers never touch the checkpoint. -/
theorem applyEvent_syncLastSlot (e : Event) (db : DB) :
    (applyEvent e db).syncLastSlot = db.syncLastSlot := by
  cases e <;> rfl

/-- The dispatch loop never touches the `processed_signatures` table. -/
theorem dispatchLoop_processedSignatures (fails : Event → Bool)
    (events : List Event) : ∀ db : DB,
    (dispatchLoop fails events db).processedSignatures
      = db.processedSignatures := by
  induction events with
  | nil => intro db; rfl
  | cons e rest ih =>
    intro db
    by_cases h : fails e = true
    · simp [dispatchLoop, dispatchEvent, h]
    · simp [dispatchLoop, dispatchEvent, h, ih, applyEvent_processedSignatures]

/-- The dispatch loop never touches the dispatch trace. -/
theorem dispatchLoop_dispatched (fails : Event → Bool)
    (events : List Event) : ∀ db : DB,
    (dispatchLoop fails events db).dispatched = db.dispatched := by
  induction events with
  | nil => intro db; rfl
  | cons e rest ih =>
    intro db
    by_cases h : fails e = true
    · simp [dispatchLoop, dispatchEvent, h]
    · simp [dispatchLoop, dispatchEvent, h, ih, applyEvent_dispatched]

/-- The dispatch loop never touches the checkpoint. -/
theorem dispatchLoop_syncLastSlot (fails : Event → Bool)
    (events : List Event) : ∀ db : DB,
    (dispatchLoop fails events db).syncLastSlot = db.syncLastSlot := by
  induction events with
  | nil => intro db; rfl
  | cons e rest ih =>
    intro db
    by_cases h : fails e = true
    · simp [dispatchLoop, dispatchEvent, h]
    · simp [dispatchLoop, dispatchEvent, h, ih, applyEvent_syncLastSlot]

/-- Method `parseAndHandleEvents` leaves `processed_signatures` alone. -/
theorem parseAndHandleEvents_processedSignatures (fails : Event → Bool)
    (sig : Nat) (events : List Event) (db : DB) :
    (parseAndHandleEvents fails sig events db).processedSignatures
      = db.processedSignatures := by
  simp [parseAndHandleEvents, dispatchLoop_processedSignatures]

/-- Method `parseAndHandleEvents` appends exactly its signature to the
dispatch trace. -/
theorem parseAndHandleEvents_dispatched (fails : Event → Bool)
    (sig : Nat) (events : List Event) (db : DB) :
    (parseAndHandleEvents fails sig events db).dispatched
      = db.dispatched ++ [sig] := by
  simp [parseAndHandleEvents, dispatchLoop_dispatched]

/-- Method `parseAndHandleEvents` leaves the checkpoint alone. -/
theorem parseAndHandleEvents_syncLastSlot (fails : Event → Bool)
    (sig : Nat) (events : List Event) (db : DB) :
    (parseAndHandleEvents fails sig events db).syncLastSlot
      = db.syncLastSlot := by
  simp [parseAndHandleEvents, dispatchLoop_syncLastSlot]

/-- After `handleLog` runs for a signature, the signature is in the
ledger (it either already was, or was just inserted). -/
theorem sigProcessed_handleLog_self (fails : Event → Bool) (sig slot : Nat)
    (events : List Event) (s : IndexerState) :
    sigProcessed (handleLog fails sig slot events s).db sig = true := by
  unfold handleLog
  by_cases h : sigProcessed s.db sig = true
  · rw [if_pos h]
    exact h
  · rw [if_neg h]
    simp [sigProcessed, List.any_append]

/-- After the historical path runs for a signature, the signature is in
the ledger. -/
theorem sigProcessed_processHist_self (fails : Event → Bool)
    (evfn : Nat → List Event) (info : Nat × Nat) (db : DB) :
    sigProcessed (processHistoricalSignature fails evfn info db) info.1
      = true := by
  unfold processHistoricalSignature
  by_cases h : sigProcessed db info.1 = true
  · rw [if_pos h]
    exact h
  · rw [if_neg h]
    simp [sigProcessed, List.any_append]

/-- Method `handleLog` is a no-op on an already-processed signature. -/
theorem handleLog_processed_noop (fails : Event → Bool) (sig slot : Nat)
    (events : List Event) (s : IndexerState)
    (h : sigProcessed s.db sig = true) :
    handleLog fails sig slot events s = s := by
  unfold handleLog
  rw [if_pos h]

/-- The historical path is a no-op on an already-processed signature. -/
theorem processHist_processed_noop (fails : Event → Bool)
    (evfn : Nat → List Event) (info : Nat × Nat) (db : DB)
    (h : sigProcessed db info.1 = true) :
    processHistoricalSignature fails evfn info db = db := by
  unfold processHistoricalSignature
  rw [if_pos h]

/-- C4: processing the same transaction signature a second time —
live after live, historical after live, live after historical, or
historical after historical — leaves the state exactly as after the
first pass: the second pass finds the signature in
`processed_signatures` and is a no-op, so no aggregate is
double-counted. -/
theorem processing_signature_twice_idempotent (fails : Event → Bool)
    (evfn : Nat → List Event) (sig slot : Nat) (s : IndexerState) (db : DB) :
    handleLog fails sig slot (evfn sig) (handleLog fails sig slot (evfn sig) s)
      = handleLog fails sig slot (evfn sig) s ∧
    processHistoricalSignature fails evfn (sig, slot)
        (handleLog fails sig slot (evfn sig) s).db
      = (handleLog fails sig slot (evfn sig) s).db ∧
    (∀ a : Nat, handleLog fails sig slot (evfn sig)
        ⟨processHistoricalSignature fails evfn (sig, slot) db, a⟩
      = ⟨processHistoricalSignature fails evfn (sig, slot) db, a⟩) ∧
    processHistoricalSignature fails evfn (sig, slot)
        (processHistoricalSignature fails evfn (sig, slot) db)
      = processHistoricalSignature fails evfn (sig, slot) db := by
  refine ⟨?_, ?_, ?_, ?_⟩
  · exact handleLog_processed_noop _ _ _ _ _
      (sigProcessed_handleLog_self fails sig slot (evfn sig) s)
  · exact processHist_processed_noop _ _ _ _
      (sigProcessed_handleLog_self fails sig slot (evfn sig) s)
  · intro a
    exact handleLog_processed_noop _ _ _ _ _
      (sigProcessed_processHist_self fails evfn (sig, slot) db)
  · exact processHist_processed_noop _ _ _ _
      (sigProcessed_processHist_self fails evfn (sig, slot) db)

/-- C5 (amended): every checkpoint write is non-decreasing *provided*
each live notification's slot is at least the current checkpoint (the
code writes the notification's slot unconditionally, so monotonicity
of arriving slots is required); the historical-sync write is
unconditionally non-decreasing, because it only runs when the head is
at least 100 slots past the checkpoint. -/
theorem checkpoint_nondecreasing_of_monotone_slots :
    (∀ (fails : Event → Bool) (sig slot : Nat) (events : List Event)
        (s : IndexerState), s.db.syncLastSlot ≤ slot →
        s.db.syncLastSlot ≤ (handleLog fails sig slot events s).db.syncLastSlot) ∧
    (∀ (fails : Event → Bool) (evfn : Nat → List Event) (head : Nat)
        (chains : List (List (Nat × Nat))) (db : DB),
        db.syncLastSlot ≤ (syncHistoricalData fails evfn head chains db).syncLastSlot) := by
  constructor
  · intro fails sig slot events s hle
    unfold handleLog
    by_cases h : sigProcessed s.db sig = true
    · rw [if_pos h]
    · rw [if_neg h]
      exact hle
  · intro fails evfn head chains db
    unfold syncHistoricalData
    by_cases h : db.syncLastSlot = 0 ∨ head - db.syncLastSlot < 100
    · rw [if_pos h]
    · rw [if_neg h]
      show db.syncLastSlot ≤ head
      omega

/-- Witness for the amended C5 theorem at a concrete input. -/
theorem checkpoint_nondecreasing_witness :
    (⟨emptyDB, 0⟩ : IndexerState).db.syncLastSlot ≤ 100 ∧
    (⟨emptyDB, 0⟩ : IndexerState).db.syncLastSlot
      ≤ (handleLog noFail 1 100 [] ⟨emptyDB, 0⟩).db.syncLastSlot :=
  ⟨by decide,
   checkpoint_nondecreasing_of_monotone_slots.1 noFail 1 100 [] ⟨emptyDB, 0⟩
     (by decide)⟩

/-- C7: when the gap between the chain head and the checkpoint is below
100 slots, `syncHistoricalData` does nothing at all — the database
(tables, checkpoint, dispatch trace) is returned unchanged. -/
theorem syncHistoricalData_skip_below_threshold (fails : Event → Bool)
    (evfn : Nat → List Event) (head : Nat)
    (chains : List (List (Nat × Nat))) (db : DB)
    (h : head < db.syncLastSlot + 100) :
    syncHistoricalData fails evfn head chains db = db := by
  unfold syncHistoricalData
  rw [if_pos (Or.inr (by omega))]


/-- Witness for the C7 theorem at a concrete input (gap of 50 < 100). -/
theorem syncHistoricalData_skip_witness :
    (1050 : Nat) < c7db.syncLastSlot + 100 ∧
    syncHistoricalData noFail (fun _ => []) 1050 [] c7db = c7db :=
  ⟨by decide,
   syncHistoricalData_skip_below_threshold noFail (fun _ => []) 1050 [] c7db
     (by decide)⟩

/-! ## Shared lemmas: reconnect backoff -/

/-- After `k` consecutive failures, the attempt counter is
`min k maxReconnectAttempts`. -/
theorem attemptsAfter_eq_min (k : Nat) :
    attemptsAfter k = min k maxReconnectAttempts := by
  induction k with
  | zero => rfl
  | succ k ih =>
    show (match failStep (attemptsAfter k) with
          | some (a, _) => a
          | none => attemptsAfter k) = _
    rw [ih]
    unfold failStep maxReconnectAttempts
    by_cases hk : k < 10
    · have h1 : min k 10 = k := min_eq_left (by omega)
      have h2 : min (k + 1) 10 = k + 1 := min_eq_left (by omega)
      rw [h1, if_pos hk, h2]
    · have h1 : min k 10 = 10 := min_eq_right (by omega)
      have h2 : min (k + 1) 10 = 10 := min_eq_right (by omega)
      rw [h1, if_neg (by omega), h2]

/-- C9: the reconnect backoff of `subscribeToLogs`: (i) the delay for
the `n`-th consecutive failed attempt strictly increases while it is
below the 30000 ms ceiling, (ii) which is reached at the 5th attempt;
(iii) the attempt counter never exceeds `maxReconnectAttempts = 10`
and (iv) from the 10th failure on no further attempt is scheduled;
(v) a completed `handleLog` apply resets the counter to 0, so (vi) the
next failure schedules the base delay `delayFor 1 = 2000` ms again. -/
theorem reconnect_backoff_properties :
    (∀ n, 1 ≤ n → delayFor n < maxReconnectDelay → delayFor n < delayFor (n + 1)) ∧
    delayFor 5 = maxReconnectDelay ∧
    (∀ k, attemptsAfter k ≤ maxReconnectAttempts) ∧
    (∀ k, maxReconnectAttempts ≤ k → failStep (attemptsAfter k) = none) ∧
    (∀ (fails : Event → Bool) (sig slot : Nat) (events : List Event)
        (s : IndexerState), sigProcessed s.db sig = false →
        (handleLog fails sig slot events s).reconnectAttempts = 0) ∧
    failStep 0 = some (1, delayFor 1) ∧ delayFor 1 = 2000 := by
  refine ⟨?_, by decide, ?_, ?_, ?_, by decide, by decide⟩
  · intro n h1 hlt
    have h2 : (2:Nat) ^ n < 2 ^ (n + 1) :=
      Nat.pow_lt_pow_succ (by norm_num)
    unfold delayFor maxReconnectDelay at *
    omega
  · intro k
    rw [attemptsAfter_eq_min]
    exact min_le_right _ _
  · intro k hk
    rw [attemptsAfter_eq_min, min_eq_right hk]
    unfold failStep
    rw [if_neg (lt_irrefl _)]
  · intro fails sig slot events s h
    unfold handleLog
    rw [if_neg (by simp [h])]

/-- Witness for the C9 theorem at concrete inputs. -/
theorem reconnect_backoff_witness :
    ((1 : Nat) ≤ 2 ∧ delayFor 2 < maxReconnectDelay ∧ delayFor 2 < delayFor 3) ∧
    (maxReconnectAttempts ≤ 12 ∧ failStep (attemptsAfter 12) = none) ∧
    (sigProcessed (⟨emptyDB, 9⟩ : IndexerState).db 5 = false ∧
     (handleLog noFail 5 77 [] ⟨emptyDB, 9⟩).reconnectAttempts = 0) :=
  ⟨⟨by decide, by decide,
    reconnect_backoff_properties.1 2 (by decide) (by decide)⟩,
   ⟨by decide, reconnect_backoff_properties.2.2.2.1 12 (by decide)⟩,
   ⟨by decide,
    reconnect_backoff_properties.2.2.2.2.1 noFail 5 77 [] ⟨emptyDB, 9⟩
      (by decide)⟩⟩

/-! ## Shared lemmas: settlement -/

/-- Looking a key up after `updateAssoc` on that key returns the
updated value. -/
theorem lookup_updateAssoc (k : String) (f : Idea → Idea) :
    ∀ l : List (String × Idea),
      (updateAssoc k f l).lookup k = (l.lookup k).map f := by
  intro l
  induction l with
  | nil => rfl
  | cons p rest ih =>
    obtain ⟨a, b⟩ := p
    unfold updateAssoc at *
    simp only [List.map_cons]
    by_cases h : a = k
    · subst h
      rw [if_pos (by simp)]
      simp [List.lookup_cons]
    · rw [if_neg (by simp [h])]
      simp only [List.lookup_cons]
      have hne : (k == a) = false := by
        simp [Ne.symm h]
      rw [hne]
      exact ih

/-- C8: applying `VotingSettled` with `winningImageIndex = 1` to an
existing idea sets its status to Completed and records
`winning_image_index = 1`; in the `votes` table exactly the rows of
that idea with `image_choice = 1` get `is_winner := true`, every other
row (other choice or other idea) is returned unchanged. -/
theorem handleVotingSettled_winner_propagation (e : VotingSettledEvent)
    (db : DB) (i : Idea) (hIdea : lookupIdea db e.idea = some i)
    (hWin : e.winningImageIndex = 1) :
    (∃ i', lookupIdea (handleVotingSettled e db) e.idea = some i' ∧
       i'.status = IdeaStatus.completed ∧ i'.winningImageIndex = some 1) ∧
    (handleVotingSettled e db).votes = db.votes.map (fun r =>
       if r.idea = e.idea ∧ r.imageChoice = 1 then
         { r with isWinner := some true }
       else r) := by
  constructor
  · have h1 : lookupIdea (handleVotingSettled e db) e.idea
        = (db.ideas.lookup e.idea).map (settleIdea e) := by
      simp only [lookupIdea, handleVotingSettled]
      exact lookup_updateAssoc e.idea (settleIdea e) db.ideas
    refine ⟨settleIdea e i, ?_, rfl, ?_⟩
    · rw [h1, show db.ideas.lookup e.idea = some i from hIdea]
      rfl
    · show some e.winningImageIndex = some 1
      rw [hWin]
  · simp only [handleVotingSettled]
    refine List.map_congr_left ?_
    intro r _
    rw [hWin]
    by_cases h1 : r.idea = e.idea <;> by_cases h2 : r.imageChoice = 1 <;>
      simp [h1, h2]


/-- Witness for the C8 theorem at a concrete input. -/
theorem handleVotingSettled_winner_witness :
    lookupIdea c8db "I" = some idea0 ∧
    ((∃ i', lookupIdea (handleVotingSettled c8e c8db) c8e.idea = some i' ∧
        i'.status = IdeaStatus.completed ∧ i'.winningImageIndex = some 1) ∧
     (handleVotingSettled c8e c8db).votes = c8db.votes.map (fun r =>
        if r.idea = c8e.idea ∧ r.imageChoice = 1 then
          { r with isWinner := some true }
        else r)) :=
  ⟨by decide,
   handleVotingSettled_winner_propagation c8e c8db idea0 (by decide) rfl⟩

/-! ## Shared lemmas: historical gap sync -/

/-- The historical per-signature step appends the signature to the
dispatch trace exactly when it was not yet processed. -/
theorem processHist_dispatched (fails : Event → Bool)
    (evfn : Nat → List Event) (i : Nat × Nat) (db : DB) :
    (processHistoricalSignature fails evfn i db).dispatched
      = if sigProcessed db i.1 = true then db.dispatched
        else db.dispatched ++ [i.1] := by
  unfold processHistoricalSignature
  by_cases h : sigProcessed db i.1 = true
  · rw [if_pos h, if_pos h]
  · rw [if_neg h, if_neg h]
    show (parseAndHandleEvents fails i.1 (evfn i.1) db).dispatched = _
    exact parseAndHandleEvents_dispatched fails i.1 (evfn i.1) db

/-- The historical per-signature step adds exactly its signature to the
ledger predicate. -/
theorem processHist_sigProcessed (fails : Event → Bool)
    (evfn : Nat → List Event) (i : Nat × Nat) (db : DB) (s : Nat) :
    sigProcessed (processHistoricalSignature fails evfn i db) s
      = (sigProcessed db s || (i.1 == s)) := by
  unfold processHistoricalSignature
  by_cases h : sigProcessed db i.1 = true
  · rw [if_pos h]
    by_cases hs : i.1 = s
    · subst hs
      rw [h]
      simp
    · have hbs : (i.1 == s) = false := by simp [hs]
      rw [hbs, Bool.or_false]
  · rw [if_neg h]
    simp [sigProcessed, List.any_append, parseAndHandleEvents_processedSignatures]

/-- After folding the historical step over a signature list, a
signature is in the ledger iff it was before or occurs in the list. -/
theorem sigProcessed_foldHist (fails : Event → Bool)
    (evfn : Nat → List Event) (infos : List (Nat × Nat)) : ∀ (db : DB) (s : Nat),
    sigProcessed (infos.foldl
        (fun a i => processHistoricalSignature fails evfn i a) db) s
      = (sigProcessed db s || infos.any (fun i => i.1 == s)) := by
  induction infos with
  | nil => intro db s; simp
  | cons i rest ih =>
    intro db s
    rw [List.foldl_cons, ih, processHist_sigProcessed]
    simp [Bool.or_assoc]

/-- After folding the historical step over a signature list, a
signature is in the dispatch trace iff it was before, or it occurs in
the list and was not yet in the ledger. -/
theorem mem_dispatched_foldHist (fails : Event → Bool)
    (evfn : Nat → List Event) (infos : List (Nat × Nat)) : ∀ (db : DB) (s : Nat),
    (s ∈ (infos.foldl
        (fun a i => processHistoricalSignature fails evfn i a) db).dispatched)
      ↔ (s ∈ db.dispatched ∨
          (s ∈ infos.map Prod.fst ∧ sigProcessed db s = false)) := by
  induction infos with
  | nil => intro db s; simp
  | cons i rest ih =>
    intro db s
    rw [List.foldl_cons, ih, processHist_dispatched, processHist_sigProcessed]
    by_cases h : sigProcessed db i.1 = true
    · rw [if_pos h]
      by_cases hs : s = i.1
      · subst hs
        simp [h]
      · have hbs : (i.1 == s) = false := by
          simp [Ne.symm hs]
        simp [hs, hbs]
    · rw [if_neg h]
      rw [Bool.not_eq_true] at h
      by_cases hs : s = i.1
      · subst hs
        simp [h]
      · have hbs : (i.1 == s) = false := by
          simp [Ne.symm hs]
        simp [hs, hbs, List.mem_append]

/-- The nested per-program fold of `syncHistoricalData` equals one fold
over the concatenation of the per-program listings. -/
theorem foldHist_eq_foldl_flatten (fails : Event → Bool)
    (evfn : Nat → List Event) (chains : List (List (Nat × Nat)))
    (C H : Nat) (db : DB) :
    chains.foldl (fun acc chain =>
        (listSignatures chain C H).foldl
          (fun a info => processHistoricalSignature fails evfn info a) acc) db
      = ((chains.map fun chain => listSignatures chain C H).flatten).foldl
          (fun a info => processHistoricalSignature fails evfn info a) db := by
  rw [List.foldl_flatten, List.foldl_map]

/-- When every program's gap holds at most 1000 signatures, the
flattened listings contain a signature iff it lies in the gap. -/
theorem mem_flat_listSignatures (chains : List (List (Nat × Nat)))
    (C H s : Nat)
    (hLim : ∀ c ∈ chains, (gapList c C H).length ≤ 1000) :
    (s ∈ ((chains.map fun c => listSignatures c C H).flatten.map Prod.fst))
      ↔ inGap chains C H s := by
  unfold inGap
  constructor
  · intro hmem
    obtain ⟨p, hp, rfl⟩ := List.mem_map.mp hmem
    obtain ⟨l, hl, hpl⟩ := List.mem_flatten.mp hp
    obtain ⟨c, hc, rfl⟩ := List.mem_map.mp hl
    rw [listSignatures, List.take_of_length_le (hLim c hc)] at hpl
    obtain ⟨hpc, hpred⟩ := List.mem_filter.mp hpl
    refine ⟨c, hc, p, hpc, rfl, ?_, ?_⟩
    · have := (Bool.and_eq_true _ _).mp hpred
      exact of_decide_eq_true this.1
    · have := (Bool.and_eq_true _ _).mp hpred
      exact of_decide_eq_true this.2
  · rintro ⟨c, hc, p, hp, rfl, h1, h2⟩
    refine List.mem_map.mpr ⟨p, ?_, rfl⟩
    refine List.mem_flatten.mpr ⟨listSignatures c C H, List.mem_map.mpr ⟨c, hc, rfl⟩, ?_⟩
    rw [listSignatures, List.take_of_length_le (hLim c hc)]
    exact List.mem_filter.mpr ⟨hp, by simp [h1, h2]⟩

/-- C6 (amended): with checkpoint `C ≠ 0` and head `H` at least 100
slots ahead, `syncHistoricalData` advances the checkpoint to exactly
the head observed at sync start, and — *provided* every monitored
program has at most 1000 signatures in the gap (the code lists with
`limit: 1000`) — it dispatches exactly the signatures whose slot lies
in `(C, H]` that were not already in the processed-signatures
ledger. -/
theorem syncHistoricalData_gap_sync_exact_within_limit
    (fails : Event → Bool) (evfn : Nat → List Event) (head : Nat)
    (chains : List (List (Nat × Nat))) (db : DB)
    (hC : db.syncLastSlot ≠ 0) (hGap : db.syncLastSlot + 100 ≤ head)
    (hLim : ∀ c ∈ chains, (gapList c db.syncLastSlot head).length ≤ 1000) :
    (syncHistoricalData fails evfn head chains db).syncLastSlot = head ∧
    ∀ s, s ∈ (syncHistoricalData fails evfn head chains db).dispatched ↔
      (s ∈ db.dispatched ∨
       (inGap chains db.syncLastSlot head s ∧ sigProcessed db s = false)) := by
  have hcond : ¬(db.syncLastSlot = 0 ∨ head - db.syncLastSlot < 100) := by
    omega
  unfold syncHistoricalData
  rw [if_neg hcond]
  refine ⟨rfl, ?_⟩
  intro s
  show s ∈ (chains.foldl (fun acc chain =>
      (listSignatures chain db.syncLastSlot head).foldl
        (fun a info => processHistoricalSignature fails evfn info a) acc)
      db).dispatched ↔ _
  rw [foldHist_eq_foldl_flatten, mem_dispatched_foldHist,
    mem_flat_listSignatures chains db.syncLastSlot head s hLim]

/-- When the guard passes, the dispatch trace after
`syncHistoricalData` is that of the flattened per-program fold. -/
theorem syncHistoricalData_dispatched_run (fails : Event → Bool)
    (evfn : Nat → List Event) (head : Nat)
    (chains : List (List (Nat × Nat))) (db : DB)
    (h : ¬(db.syncLastSlot = 0 ∨ head - db.syncLastSlot < 100)) :
    (syncHistoricalData fails evfn head chains db).dispatched
      = (((chains.map fun chain =>
            listSignatures chain db.syncLastSlot head).flatten).foldl
          (fun a info => processHistoricalSignature fails evfn info a)
          db).dispatched := by
  unfold syncHistoricalData
  rw [if_neg h, foldHist_eq_foldl_flatten]

/-- Witness for the amended C6 theorem at a concrete input: one
program whose gap holds the single signature 5 at slot 50. -/
theorem syncHistoricalData_gap_sync_witness :
    c6db.syncLastSlot ≠ 0 ∧ c6db.syncLastSlot + 100 ≤ 101 ∧
    (∀ c ∈ ([[(5, 50)]] : List (List (Nat × Nat))),
      (gapList c c6db.syncLastSlot 101).length ≤ 1000) ∧
    ((syncHistoricalData noFail (fun _ => []) 101 [[(5, 50)]] c6db).syncLastSlot
        = 101 ∧
     ∀ s, s ∈ (syncHistoricalData noFail (fun _ => []) 101 [[(5, 50)]]
         c6db).dispatched ↔
       (s ∈ c6db.dispatched ∨
        (inGap [[(5, 50)]] c6db.syncLastSlot 101 s ∧
         sigProcessed c6db s = false))) :=
  ⟨by decide, by decide, by decide,
   syncHistoricalData_gap_sync_exact_within_limit noFail (fun _ => []) 101
     [[(5, 50)]] c6db (by decide) (by decide) (by decide)⟩

/-- C6 counterexample: the claim is false on the code as stated.  With
checkpoint 1, head 101 (gap 100) and a program carrying 1001 gap
signatures, the `limit: 1000` listing drops signature 1000, so the
sync does *not* apply every unprocessed gap signature. -/
theorem syncHistoricalData_misses_signatures_beyond_limit :
    c6db.syncLastSlot = 1 ∧ c6db.syncLastSlot ≠ 0 ∧
    c6db.syncLastSlot + 100 ≤ 101 ∧
    inGap [bigChain] c6db.syncLastSlot 101 1000 ∧
    sigProcessed c6db 1000 = false ∧
    (1000 : Nat) ∉ c6db.dispatched ∧
    (1000 : Nat) ∉ (syncHistoricalData noFail (fun _ => []) 101 [bigChain]
      c6db).dispatched := by
  refine ⟨rfl, by decide, by decide, ?_, by decide, by decide, ?_⟩
  · refine ⟨bigChain, by simp, (1000, 50), ?_, rfl, by decide, by decide⟩
    exact List.mem_map.mpr ⟨1000, List.mem_range.mpr (by norm_num), rfl⟩
  · have hcond : ¬(c6db.syncLastSlot = 0 ∨ (101:Nat) - c6db.syncLastSlot < 100) := by
      decide
    intro hmem
    rw [syncHistoricalData_dispatched_run noFail (fun _ => []) 101 [bigChain]
      c6db hcond] at hmem
    have h := (mem_dispatched_foldHist noFail (fun _ => []) _ c6db 1000).mp hmem
    rcases h with h | ⟨h, _⟩
    · exact absurd h (by decide)
    · have hfil : gapList bigChain c6db.syncLastSlot 101 = bigChain := by
        apply List.filter_eq_self.mpr
        intro p hp
        obtain ⟨i, hi, rfl⟩ := List.mem_map.mp hp
        simp [c6db, emptyDB]
      have hflat : (([bigChain]).map fun c =>
            listSignatures c c6db.syncLastSlot 101).flatten
          = (List.range 1000).map (fun i => (i, 50)) := by
        simp only [List.map_cons, List.map_nil, List.flatten_cons,
          List.flatten_nil, List.append_nil]
        rw [listSignatures, hfil]
        unfold bigChain
        rw [← List.map_take, List.take_range,
          min_eq_left (by norm_num : (1000:Nat) ≤ 1001)]
      rw [hflat, List.map_map] at h
      simp at h
